import Mathlib

/-!
Credential helpers of `src/node/crypto.mjs`

A shallow embedding of the five exported functions of the module
(`generateHash`, `compareToHash`, `encrypt`, `decrypt`,
`generateRandomPassword`) together with the JavaScript and Node.js built-ins
they are written with.

* A JavaScript string is a list of UTF-16 code units, which may hold an
  unpaired surrogate; a `Buffer` is a list of bytes.
* `String.prototype.split`, `Array.prototype.join`, `Buffer.from(s, 'hex')`,
  `buf.toString('hex')`, the UTF-8 codec, `crypto.timingSafeEqual`, the
  length checks of `createCipheriv` / `createDecipheriv`, the `Uint32Array`
  constructor and `crypto.getRandomValues` are modelled concretely.
* The two native primitives, scrypt and the AES-256-CBC transform, are
  parameters; so are the bytes handed out by `crypto.randomBytes` and the
  entropy behind `crypto.getRandomValues`.
* A promise is recorded by the way it settles and by the exception, if any,
  that escapes from an asynchronous callback.
-/

namespace Tools

/-! ## Data model -/

/-- One octet of a `Buffer`. -/
abbrev Byte := Fin 256

/-- Node `Buffer`: a sequence of octets. -/
abbrev Buffer := List Byte

/-- One UTF-16 code unit of a JavaScript string. -/
abbrev CodeUnit := Fin 65536

/-- JavaScript string: a sequence of UTF-16 code units. -/
abbrev JsString := List CodeUnit

/-- The code unit with value `n` modulo 65536. -/
def unit (n : Nat) : CodeUnit := ⟨n % 65536, Nat.mod_lt _ (by decide)⟩

/-- UTF-16 code units of the code point `n`: one unit below U+10000, a
surrogate pair from there on. -/
def utf16Units (n : Nat) : JsString :=
  if n < 0x10000 then [unit n]
  else [unit (0xD800 + (n - 0x10000) / 1024), unit (0xDC00 + (n - 0x10000) % 1024)]

/-- The JavaScript string written as the literal `s`. -/
def jsString (s : String) : JsString := s.toList.flatMap fun c => utf16Units c.toNat

/-- The code unit of `:`. -/
def colon : CodeUnit := unit 58

/-- High (leading) surrogate, U+D800 to U+DBFF. -/
def isHighSurrogate (u : CodeUnit) : Bool := decide (0xD800 ≤ u.val ∧ u.val ≤ 0xDBFF)

/-- Low (trailing) surrogate, U+DC00 to U+DFFF. -/
def isLowSurrogate (u : CodeUnit) : Bool := decide (0xDC00 ≤ u.val ∧ u.val ≤ 0xDFFF)

/-- Model of `s.isWellFormed()`: every surrogate is half of a pair, a high
one immediately followed by a low one. -/
def isWellFormed : JsString → Bool
  | [] => true
  | [u] => !isHighSurrogate u && !isLowSurrogate u
  | u :: v :: rest =>
    if isHighSurrogate u then isLowSurrogate v && isWellFormed rest
    else !isLowSurrogate u && isWellFormed (v :: rest)

/-- The octet with value `n` modulo 256. -/
def byte (n : Nat) : Byte := ⟨n % 256, Nat.mod_lt _ (by decide)⟩

/-- Exceptions raised by the built-ins the module calls. -/
inductive JsError where
  /-- `TypeError` for an argument of the wrong type (`undefined` where a string or buffer is needed). -/
  | invalidArgType
  /-- `RangeError` of `crypto.timingSafeEqual` on buffers of different byte length. -/
  | timingSafeEqualLength
  /-- `RangeError` of `createCipheriv` / `createDecipheriv`: key of the wrong size. -/
  | invalidKeyLength
  /-- `TypeError` of `createCipheriv` / `createDecipheriv`: IV of the wrong size. -/
  | invalidIv
  /-- `RangeError` of the typed-array constructor: negative length, or too large to allocate. -/
  | invalidTypedArrayLength
  /-- `QuotaExceededError` of `crypto.getRandomValues` above 65536 bytes. -/
  | quotaExceeded
  /-- An error reported by a native primitive (scrypt, the cipher), with its code. -/
  | native (code : Nat)
  deriving DecidableEq, Repr

/-- Result of a synchronous call: a value or a thrown exception. -/
inductive Completion (α : Type) where
  | normal (value : α)
  | throws (error : JsError)
  deriving DecidableEq, Repr

/-- Final state of a promise. -/
inductive Settlement (α : Type) where
  /-- Neither `resolve` nor `reject` was ever called. -/
  | pending
  | fulfilled (value : α)
  | rejected (reason : JsError)
  deriving DecidableEq, Repr

/-- Observable result of running a promise-returning function to quiescence:
how the promise settled, and the exception that escaped from the asynchronous
callback, if one did. -/
structure PromiseRun (α : Type) where
  settlement : Settlement α
  uncaught : Option JsError
  deriving DecidableEq, Repr

/-! ## String and buffer built-ins -/

/-- Lower-case hexadecimal digit of a nibble, as written by `buf.toString('hex')`. -/
def hexDigit (n : Nat) : CodeUnit :=
  if n < 10 then unit (48 + n) else unit (87 + n)

/-- Value of a hexadecimal digit, either case, as read by `Buffer.from(s, 'hex')`:
the decoder looks at the low 8 bits of the code unit only. -/
def unhex (u : CodeUnit) : Option Nat :=
  let c := u.val % 256
  if 48 ≤ c ∧ c ≤ 57 then some (c - 48)
  else if 97 ≤ c ∧ c ≤ 102 then some (c - 87)
  else if 65 ≤ c ∧ c ≤ 70 then some (c - 55)
  else none

/-- Model of `buf.toString('hex')`: two lower-case digits per octet. -/
def hexEncode : Buffer → JsString
  | [] => []
  | b :: bs => hexDigit (b.val / 16) :: hexDigit (b.val % 16) :: hexEncode bs

/-- Model of `Buffer.from(s, 'hex')`: octets are read pair by pair of code
units and decoding stops at the first pair that is not two hexadecimal digits
(each read through its low 8 bits); a trailing single unit is dropped. -/
def hexDecode : JsString → Buffer
  | hi :: lo :: rest =>
    match unhex hi, unhex lo with
    | some a, some b => byte (16 * a + b) :: hexDecode rest
    | _, _ => []
  | _ => []

/-- Model of `Buffer.from(x, 'hex')` where `x` may be `undefined`. -/
def bufferFromHex : Option JsString → Completion Buffer
  | none => .throws .invalidArgType
  | some s => .normal (hexDecode s)

/-- Model of `s.split(sep)` for a one-character separator. -/
def split (sep : CodeUnit) : JsString → List JsString
  | [] => [[]]
  | c :: cs =>
    if c = sep then [] :: split sep cs
    else
      match split sep cs with
      | [] => [[c]]
      | p :: ps => (c :: p) :: ps

/-- Model of `parts.join(sep)` for a one-character separator. -/
def join (sep : CodeUnit) : List JsString → JsString
  | [] => []
  | [p] => p
  | p :: q :: ps => p ++ sep :: join sep (q :: ps)

/-- Model of `crypto.timingSafeEqual(a, b)`. -/
def timingSafeEqual (a b : Buffer) : Completion Bool :=
  if a.length ≠ b.length then .throws .timingSafeEqualLength
  else .normal (decide (a = b))

/-! ## UTF-8 codec (`Buffer.from(s)`, `cipher.update(s)`, `buf.toString()`) -/

/-- UTF-8 bytes of the scalar value `n`. -/
def utf8EncodeScalar (n : Nat) : Buffer :=
  if n < 0x80 then [byte n]
  else if n < 0x800 then [byte (0xC0 + n / 64), byte (0x80 + n % 64)]
  else if n < 0x10000 then
    [byte (0xE0 + n / 4096), byte (0x80 + n / 64 % 64), byte (0x80 + n % 64)]
  else
    [byte (0xF0 + n / 262144), byte (0x80 + n / 4096 % 64), byte (0x80 + n / 64 % 64),
      byte (0x80 + n % 64)]

/-- Model of `Buffer.from(s)` and of the string argument of `cipher.update`:
a surrogate pair is one code point of four octets, an unpaired surrogate is
written as U+FFFD (`EF BF BD`). -/
def utf8Encode : JsString → Buffer
  | [] => []
  | [u] =>
    utf8EncodeScalar (if isHighSurrogate u || isLowSurrogate u then 0xFFFD else u.val)
  | u :: v :: rest =>
    if isHighSurrogate u && isLowSurrogate v then
      utf8EncodeScalar (0x10000 + (u.val - 0xD800) * 1024 + (v.val - 0xDC00)) ++ utf8Encode rest
    else
      utf8EncodeScalar (if isHighSurrogate u || isLowSurrogate u then 0xFFFD else u.val)
        ++ utf8Encode (v :: rest)

/-- The replacement character U+FFFD. -/
def replacementChar : CodeUnit := unit 0xFFFD

/-- Continuation octet `10xxxxxx`. -/
def isCont (b : Byte) : Bool := decide (0x80 ≤ b.val ∧ b.val ≤ 0xBF)

/-- Admissible second octet after the lead octet `b0` of a three-octet form. -/
def second3 (b0 b1 : Byte) : Bool :=
  if b0.val = 0xE0 then decide (0xA0 ≤ b1.val ∧ b1.val ≤ 0xBF)
  else if b0.val = 0xED then decide (0x80 ≤ b1.val ∧ b1.val ≤ 0x9F)
  else isCont b1

/-- Admissible second octet after the lead octet `b0` of a four-octet form. -/
def second4 (b0 b1 : Byte) : Bool :=
  if b0.val = 0xF0 then decide (0x90 ≤ b1.val ∧ b1.val ≤ 0xBF)
  else if b0.val = 0xF4 then decide (0x80 ≤ b1.val ∧ b1.val ≤ 0x8F)
  else isCont b1

/-- Decoder of `buf.toString()`, with a step budget: each step consumes at
least one octet, every maximal ill-formed subsequence is replaced by U+FFFD,
and a code point of four octets comes out as a surrogate pair. -/
def utf8DecodeAux : Nat → Buffer → JsString
  | 0, _ => []
  | _, [] => []
  | fuel + 1, b0 :: rest =>
    if b0.val < 0x80 then unit b0.val :: utf8DecodeAux fuel rest
    else if 0xC2 ≤ b0.val ∧ b0.val ≤ 0xDF then
      match rest with
      | [] => [replacementChar]
      | b1 :: r1 =>
        if isCont b1 then
          unit ((b0.val - 0xC0) * 64 + (b1.val - 0x80)) :: utf8DecodeAux fuel r1
        else replacementChar :: utf8DecodeAux fuel rest
    else if 0xE0 ≤ b0.val ∧ b0.val ≤ 0xEF then
      match rest with
      | [] => [replacementChar]
      | b1 :: r1 =>
        if second3 b0 b1 then
          match r1 with
          | [] => [replacementChar]
          | b2 :: r2 =>
            if isCont b2 then
              unit ((b0.val - 0xE0) * 4096 + (b1.val - 0x80) * 64 + (b2.val - 0x80))
                :: utf8DecodeAux fuel r2
            else replacementChar :: utf8DecodeAux fuel r1
        else replacementChar :: utf8DecodeAux fuel rest
    else if 0xF0 ≤ b0.val ∧ b0.val ≤ 0xF4 then
      match rest with
      | [] => [replacementChar]
      | b1 :: r1 =>
        if second4 b0 b1 then
          match r1 with
          | [] => [replacementChar]
          | b2 :: r2 =>
            if isCont b2 then
              match r2 with
              | [] => [replacementChar]
              | b3 :: r3 =>
                if isCont b3 then
                  utf16Units ((b0.val - 0xF0) * 262144 + (b1.val - 0x80) * 4096
                    + (b2.val - 0x80) * 64 + (b3.val - 0x80)) ++ utf8DecodeAux fuel r3
                else replacementChar :: utf8DecodeAux fuel r2
            else replacementChar :: utf8DecodeAux fuel r1
        else replacementChar :: utf8DecodeAux fuel rest
    else replacementChar :: utf8DecodeAux fuel rest

/-- Model of `buf.toString()`: the budget is the number of octets, which the
decoder never exhausts before the input. -/
def utf8Decode (b : Buffer) : JsString := utf8DecodeAux b.length b

/-! ## Native primitives and sources of randomness -/

/-- Key-derivation primitive: `crypto.scrypt(password, salt, keylen, cb)` hands
either an error or the derived key to its callback. -/
abbrev Scrypt := JsString → JsString → Nat → Completion Buffer

/-- The native AES-256-CBC transform with PKCS#7 padding reached through
`createCipheriv` / `createDecipheriv`, for a key of 32 octets and an IV of 16. -/
structure Aes256Cbc where
  /-- `Buffer.concat([cipher.update(data), cipher.final()])` under `key` and `iv`. -/
  encipher : (key iv data : Buffer) → Buffer
  /-- `Buffer.concat([decipher.update(data), decipher.final()])` under `key` and
  `iv`, or the error thrown by `final`. -/
  decipher : (key iv data : Buffer) → Completion Buffer

/-- Deciphering under the key and IV used for enciphering gives the data back. -/
def Aes256Cbc.DecipherInverts (aes : Aes256Cbc) : Prop :=
  ∀ key iv data : Buffer, key.length = 32 → iv.length = 16 →
    aes.decipher key iv (aes.encipher key iv data) = .normal data

/-- With padding on, `final` throws when no ciphertext block was supplied. -/
def Aes256Cbc.FinalRejectsEmpty (aes : Aes256Cbc) : Prop :=
  ∀ key iv : Buffer, key.length = 32 → iv.length = 16 →
    ∃ err, aes.decipher key iv [] = .throws err

/-- A stand-in transform used to instantiate the results: enciphering appends
one padding octet, deciphering removes it and refuses an empty input. -/
def paddingOnly : Aes256Cbc where
  encipher _ _ data := data ++ [byte 1]
  decipher _ _ data :=
    match data with
    | [] => .throws (.native 0)
    | _ => .normal data.dropLast

/-- A stand-in scrypt used to instantiate the results: `keylen` octets, each
the length of the password plus the length of the salt. -/
def lengthScrypt : Scrypt :=
  fun password salt keylen => .normal (List.replicate keylen (byte (password.length + salt.length)))

/-- A stand-in for `crypto.randomBytes`: the octets `0, 1, ..., n - 1`. -/
def countingBytes (n : Nat) : Buffer := (List.range n).map byte

/-- The characters `buf.toString('hex')` writes. -/
def hexDigits : JsString := (jsString "0123456789abcdef")

/-- Model of `crypto.createCipheriv('aes-256-cbc', key, iv)` followed by
`update` and `final`: the sizes of key and IV are checked at creation. -/
def createCipheriv (aes : Aes256Cbc) (key iv : Buffer) : Completion (Buffer → Buffer) :=
  if key.length ≠ 32 then .throws .invalidKeyLength
  else if iv.length ≠ 16 then .throws .invalidIv
  else .normal (aes.encipher key iv)

/-- Model of `crypto.createDecipheriv('aes-256-cbc', key, iv)` followed by
`update` and `final`. -/
def createDecipheriv (aes : Aes256Cbc) (key iv : Buffer) :
    Completion (Buffer → Completion Buffer) :=
  if key.length ≠ 32 then .throws .invalidKeyLength
  else if iv.length ≠ 16 then .throws .invalidIv
  else .normal (aes.decipher key iv)

/-- Model of `new Uint32Array(length)`: a zero-filled array, or a `RangeError`
for a negative length and for a length above `maxLength`, the largest length
the engine allocates (a limit that depends on the engine and its memory). -/
def newUint32Array (maxLength : Nat) (length : Int) : Completion (List Nat) :=
  if length < 0 ∨ (maxLength : Int) < length then .throws .invalidTypedArrayLength
  else .normal (List.replicate length.toNat 0)

/-- Model of `crypto.getRandomValues(array)` on a `Uint32Array`: refuses more
than 65536 bytes, otherwise fills slot `i` with the `i`-th draw, stored as an
unsigned 32-bit value. -/
def getRandomValues (entropy : Nat → Nat) (array : List Nat) : Completion (List Nat) :=
  if 65536 < 4 * array.length then .throws .quotaExceeded
  else .normal ((List.range array.length).map fun i => entropy i % 2 ^ 32)

/-- Model of `parts.join('')` on an array of one-character strings, where an
`undefined` entry contributes nothing. -/
def joinEmpty : List (Option CodeUnit) → JsString
  | [] => []
  | none :: ps => joinEmpty ps
  | some c :: ps => c :: joinEmpty ps

/-! ## The module -/

/-- Source: `const encryptionKey = 'a-key-with-exactly-32-characters'`. -/
def encryptionKey : JsString := (jsString "a-key-with-exactly-32-characters")

/-- Source: `const ivLength = 16`. -/
def ivLength : Nat := 16

/-- Source: `generateHash`. `randomBytes n` is what `crypto.randomBytes(n)`
returns. When scrypt reports an error the callback calls `reject(err)` and
goes on to evaluate `derivedKey.toString('hex')` on `undefined`, which throws
inside the callback. -/
def generateHash (randomBytes : Nat → Buffer) (scrypt : Scrypt) (password : JsString) :
    PromiseRun JsString :=
  let salt := hexEncode (randomBytes 8)
  match scrypt password salt 64 with
  | .throws err => ⟨.rejected err, some .invalidArgType⟩
  | .normal derivedKey => ⟨.fulfilled (salt ++ [colon] ++ hexEncode derivedKey), none⟩

/-- Source: `compareToHash`. `const [salt, key] = hash.split(':')` takes the
first two parts; `Buffer.from(key, 'hex')` runs in the promise executor, so
what it throws rejects the promise, while `crypto.timingSafeEqual` runs in the
scrypt callback, so what it throws escapes and the promise stays pending. -/
def compareToHash (scrypt : Scrypt) (password hash : JsString) : PromiseRun Bool :=
  match split colon hash with
  | [] => ⟨.rejected .invalidArgType, none⟩
  | salt :: rest =>
    let key := rest.head?
    match bufferFromHex key with
    | .throws err => ⟨.rejected err, none⟩
    | .normal keyBuffer =>
      match scrypt password salt 64 with
      | .throws err => ⟨.rejected err, some .invalidArgType⟩
      | .normal derivedKey =>
        match timingSafeEqual keyBuffer derivedKey with
        | .throws err => ⟨.pending, some err⟩
        | .normal equal => ⟨.fulfilled equal, none⟩

/-- Source: `encrypt`. The whole body is inside `try`/`catch`, so an exception
rejects the promise. -/
def encrypt (aes : Aes256Cbc) (randomBytes : Nat → Buffer) (text : JsString) :
    PromiseRun JsString :=
  let iv := randomBytes ivLength
  match createCipheriv aes (utf8Encode encryptionKey) iv with
  | .throws err => ⟨.rejected err, none⟩
  | .normal cipher =>
    let encrypted := cipher (utf8Encode text)
    ⟨.fulfilled (hexEncode iv ++ [colon] ++ hexEncode encrypted), none⟩

/-- Source: `decrypt`. `textParts.shift()` removes and returns the first part
(`undefined` on an empty array), the remaining parts are joined again. -/
def decrypt (aes : Aes256Cbc) (text : JsString) : PromiseRun JsString :=
  let textParts := split colon text
  match bufferFromHex textParts.head? with
  | .throws err => ⟨.rejected err, none⟩
  | .normal iv =>
    let encryptedText := hexDecode (join colon textParts.tail)
    match createDecipheriv aes (utf8Encode encryptionKey) iv with
    | .throws err => ⟨.rejected err, none⟩
    | .normal decipher =>
      match decipher encryptedText with
      | .throws err => ⟨.rejected err, none⟩
      | .normal decrypted => ⟨.fulfilled (utf8Decode decrypted), none⟩

/-- Source: the `chars` constant of `generateRandomPassword`. -/
def chars : JsString :=
  (jsString "abcdefghijklmnopqrstuvwxyzABCDEFGHIJKLMNOPQRSTUVWXYZ0123456789!@-_#$*")

/-- Source: `generateRandomPassword`. The argument is `none` when the caller
passes nothing, and the default 24 is then used. `entropy i` is the `i`-th
value drawn by the random source, `maxLength` the allocation limit of the
engine. -/
def generateRandomPassword (entropy : Nat → Nat) (maxLength : Nat) (length : Option Int) :
    Completion JsString :=
  match newUint32Array maxLength (length.getD 24) with
  | .throws err => .throws err
  | .normal array =>
    match getRandomValues entropy array with
    | .throws err => .throws err
    | .normal values => .normal (joinEmpty (values.map fun x => chars[x % chars.length]?))

/-! ## Hexadecimal encoding -/

theorem unhex_hexDigit_fin : ∀ n : Fin 16, unhex (hexDigit n.val) = some n.val := by decide

theorem unhex_hexDigit {n : Nat} (h : n < 16) : unhex (hexDigit n) = some n :=
  unhex_hexDigit_fin ⟨n, h⟩

theorem hexDigit_mem_fin : ∀ n : Fin 16, hexDigit n.val ∈ hexDigits := by decide

theorem hexDigit_mem {n : Nat} (h : n < 16) : hexDigit n ∈ hexDigits :=
  hexDigit_mem_fin ⟨n, h⟩

theorem colon_not_mem_hexDigits : colon ∉ hexDigits := by decide

theorem byte_div_mod (b : Byte) : byte (16 * (b.val / 16) + b.val % 16) = b := by
  apply Fin.ext
  simp only [byte]
  have := b.isLt
  omega

theorem hexDecode_hexEncode (bs : Buffer) : hexDecode (hexEncode bs) = bs := by
  induction bs with
  | nil => rfl
  | cons b bs ih =>
    have h1 : b.val / 16 < 16 := by have := b.isLt; omega
    have h2 : b.val % 16 < 16 := Nat.mod_lt _ (by decide)
    simp only [hexEncode, hexDecode, unhex_hexDigit h1, unhex_hexDigit h2, byte_div_mod, ih]

theorem length_hexEncode (bs : Buffer) : (hexEncode bs).length = 2 * bs.length := by
  induction bs with
  | nil => rfl
  | cons b bs ih => simp only [hexEncode, List.length_cons, ih]; omega

theorem mem_hexDigits_of_mem_hexEncode (bs : Buffer) :
    ∀ c ∈ hexEncode bs, c ∈ hexDigits := by
  induction bs with
  | nil => intro c hc; simp [hexEncode] at hc
  | cons b bs ih =>
    have h1 : b.val / 16 < 16 := by have := b.isLt; omega
    have h2 : b.val % 16 < 16 := Nat.mod_lt _ (by decide)
    intro c hc
    simp only [hexEncode, List.mem_cons] at hc
    rcases hc with rfl | rfl | hc
    · exact hexDigit_mem h1
    · exact hexDigit_mem h2
    · exact ih c hc

theorem colon_not_mem_hexEncode (bs : Buffer) : colon ∉ hexEncode bs :=
  fun h => colon_not_mem_hexDigits (mem_hexDigits_of_mem_hexEncode bs _ h)

theorem hexEncode_injective : Function.Injective hexEncode := by
  intro a b h
  have := congrArg hexDecode h
  simpa only [hexDecode_hexEncode] using this

/-! ## `split` and `join` -/

theorem split_of_not_mem (sep : CodeUnit) (s : JsString) (h : sep ∉ s) : split sep s = [s] := by
  induction s with
  | nil => rfl
  | cons c cs ih =>
    simp only [List.mem_cons, not_or] at h
    have hc : c ≠ sep := fun e => h.1 e.symm
    simp only [split, hc, if_false, ih h.2]

theorem split_append_sep (sep : CodeUnit) (a b : JsString) (h : sep ∉ a) :
    split sep (a ++ sep :: b) = a :: split sep b := by
  induction a with
  | nil => simp [split]
  | cons c cs ih =>
    simp only [List.mem_cons, not_or] at h
    have hc : c ≠ sep := fun e => h.1 e.symm
    have e : (c :: cs) ++ sep :: b = c :: (cs ++ sep :: b) := rfl
    rw [e]
    simp only [split, hc, if_false, ih h.2]

theorem split_envelope (a b : Buffer) :
    split colon (hexEncode a ++ [colon] ++ hexEncode b) = [hexEncode a, hexEncode b] := by
  rw [List.append_assoc, List.singleton_append,
    split_append_sep _ _ _ (colon_not_mem_hexEncode a),
    split_of_not_mem _ _ (colon_not_mem_hexEncode b)]

theorem getElem?_sep_iff (sep : CodeUnit) (a b : JsString) (ha : sep ∉ a) (hb : sep ∉ b) (i : Nat) :
    (a ++ [sep] ++ b)[i]? = some sep ↔ i = a.length := by
  rw [List.append_assoc, List.singleton_append]
  constructor
  · intro h
    by_contra hne
    rcases Nat.lt_or_gt_of_ne hne with hlt | hgt
    · rw [List.getElem?_append_left hlt] at h
      exact ha (List.getElem?_mem h)
    · rw [List.getElem?_append_right (Nat.le_of_lt hgt)] at h
      obtain ⟨k, hk⟩ : ∃ k, i - a.length = k + 1 := ⟨i - a.length - 1, by omega⟩
      rw [hk, List.getElem?_cons_succ] at h
      exact hb (List.getElem?_mem h)
  · rintro rfl
    rw [List.getElem?_append_right (Nat.le_refl _), Nat.sub_self, List.getElem?_cons_zero]

/-! ## UTF-8 -/

theorem val_byte (n : Nat) : (byte n).val = n % 256 := rfl

theorem val_unit (n : Nat) : (unit n).val = n % 65536 := rfl

theorem unit_val (u : CodeUnit) : unit u.val = u := by
  apply Fin.ext
  rw [val_unit]
  exact Nat.mod_eq_of_lt u.isLt

theorem utf16Units_of_lt {n : Nat} (h : n < 0x10000) : utf16Units n = [unit n] := by
  simp only [utf16Units, h, if_true]

theorem utf16Units_pair (u v : CodeUnit) (hu : isHighSurrogate u = true)
    (hv : isLowSurrogate v = true) :
    utf16Units (0x10000 + (u.val - 0xD800) * 1024 + (v.val - 0xDC00)) = [u, v] := by
  simp only [isHighSurrogate, isLowSurrogate, decide_eq_true_eq] at hu hv
  have h : ¬ (0x10000 + (u.val - 0xD800) * 1024 + (v.val - 0xDC00) < 0x10000) := by omega
  have e1 : 0xD800 + (0x10000 + (u.val - 0xD800) * 1024 + (v.val - 0xDC00) - 0x10000) / 1024
      = u.val := by omega
  have e2 : 0xDC00 + (0x10000 + (u.val - 0xD800) * 1024 + (v.val - 0xDC00) - 0x10000) % 1024
      = v.val := by omega
  simp only [utf16Units, h, if_false, e1, e2, unit_val]

theorem utf8DecodeAux_scalar (n : Nat) (hn : n < 55296 ∨ 57343 < n ∧ n < 1114112)
    (fuel : Nat) (rest : Buffer) :
    utf8DecodeAux (fuel + 1) (utf8EncodeScalar n ++ rest)
      = utf16Units n ++ utf8DecodeAux fuel rest := by
  unfold utf8EncodeScalar
  by_cases h1 : n < 0x80
  · have v0 : (byte n).val = n := by rw [val_byte]; omega
    have u0 : utf16Units n = [unit n] := utf16Units_of_lt (by omega)
    simp only [h1, if_true, List.cons_append, List.nil_append, utf8DecodeAux, v0, u0]
  · by_cases h2 : n < 0x800
    · have v0 : (byte (0xC0 + n / 64)).val = 0xC0 + n / 64 := by rw [val_byte]; omega
      have v1 : (byte (0x80 + n % 64)).val = 0x80 + n % 64 := by rw [val_byte]; omega
      have c0 : ¬ (0xC0 + n / 64 < 0x80) := by omega
      have c1 : 0xC2 ≤ 0xC0 + n / 64 ∧ 0xC0 + n / 64 ≤ 0xDF := by omega
      have c2 : 0x80 ≤ 0x80 + n % 64 ∧ 0x80 + n % 64 ≤ 0xBF := by omega
      have e : (0xC0 + n / 64 - 0xC0) * 64 + (0x80 + n % 64 - 0x80) = n := by omega
      have u0 : utf16Units n = [unit n] := utf16Units_of_lt (by omega)
      simp only [h1, h2, if_true, if_false, List.cons_append, List.nil_append, utf8DecodeAux,
        isCont, v0, v1, c0, c1, c2, e, u0, decide_True, and_self]
    · by_cases h3 : n < 0x10000
      · have v0 : (byte (0xE0 + n / 4096)).val = 0xE0 + n / 4096 := by rw [val_byte]; omega
        have v1 : (byte (0x80 + n / 64 % 64)).val = 0x80 + n / 64 % 64 := by rw [val_byte]; omega
        have v2 : (byte (0x80 + n % 64)).val = 0x80 + n % 64 := by rw [val_byte]; omega
        have c0 : ¬ (0xE0 + n / 4096 < 0x80) := by omega
        have c1 : ¬ (0xC2 ≤ 0xE0 + n / 4096 ∧ 0xE0 + n / 4096 ≤ 0xDF) := by omega
        have c2 : 0xE0 ≤ 0xE0 + n / 4096 ∧ 0xE0 + n / 4096 ≤ 0xEF := by omega
        have c3 : second3 (byte (0xE0 + n / 4096)) (byte (0x80 + n / 64 % 64)) = true := by
          unfold second3 isCont
          rw [v0, v1]
          split
          · exact decide_eq_true (by omega)
          · split
            · exact decide_eq_true (by omega)
            · exact decide_eq_true (by omega)
        have c4 : 0x80 ≤ 0x80 + n % 64 ∧ 0x80 + n % 64 ≤ 0xBF := by omega
        have e : (0xE0 + n / 4096 - 0xE0) * 4096 + (0x80 + n / 64 % 64 - 0x80) * 64
            + (0x80 + n % 64 - 0x80) = n := by omega
        have u0 : utf16Units n = [unit n] := utf16Units_of_lt h3
        simp only [h1, h2, h3, if_true, if_false, List.cons_append, List.nil_append,
          utf8DecodeAux, isCont, v0, v1, v2, c0, c1, c2, c3, c4, e, u0, decide_True, and_self]
      · have v0 : (byte (0xF0 + n / 262144)).val = 0xF0 + n / 262144 := by rw [val_byte]; omega
        have v1 : (byte (0x80 + n / 4096 % 64)).val = 0x80 + n / 4096 % 64 := by
          rw [val_byte]; omega
        have v2 : (byte (0x80 + n / 64 % 64)).val = 0x80 + n / 64 % 64 := by rw [val_byte]; omega
        have v3 : (byte (0x80 + n % 64)).val = 0x80 + n % 64 := by rw [val_byte]; omega
        have c0 : ¬ (0xF0 + n / 262144 < 0x80) := by omega
        have c1 : ¬ (0xC2 ≤ 0xF0 + n / 262144 ∧ 0xF0 + n / 262144 ≤ 0xDF) := by omega
        have c2 : ¬ (0xE0 ≤ 0xF0 + n / 262144 ∧ 0xF0 + n / 262144 ≤ 0xEF) := by omega
        have c3 : 0xF0 ≤ 0xF0 + n / 262144 ∧ 0xF0 + n / 262144 ≤ 0xF4 := by omega
        have c4 : second4 (byte (0xF0 + n / 262144)) (byte (0x80 + n / 4096 % 64)) = true := by
          unfold second4 isCont
          rw [v0, v1]
          split
          · exact decide_eq_true (by omega)
          · split
            · exact decide_eq_true (by omega)
            · exact decide_eq_true (by omega)
        have c5 : 0x80 ≤ 0x80 + n / 64 % 64 ∧ 0x80 + n / 64 % 64 ≤ 0xBF := by omega
        have c6 : 0x80 ≤ 0x80 + n % 64 ∧ 0x80 + n % 64 ≤ 0xBF := by omega
        have e : (0xF0 + n / 262144 - 0xF0) * 262144 + (0x80 + n / 4096 % 64 - 0x80) * 4096
            + (0x80 + n / 64 % 64 - 0x80) * 64 + (0x80 + n % 64 - 0x80) = n := by omega
        simp only [h1, h2, h3, if_true, if_false, List.cons_append, List.nil_append,
          utf8DecodeAux, isCont, v0, v1, v2, v3, c0, c1, c2, c3, c4, c5, c6, e, decide_True,
          and_self]

theorem length_utf8EncodeScalar_pos (n : Nat) : 0 < (utf8EncodeScalar n).length := by
  unfold utf8EncodeScalar
  split
  · simp
  · split
    · simp
    · split <;> simp

theorem utf8DecodeAux_single (u : CodeUnit) (hh : isHighSurrogate u = false)
    (hl : isLowSurrogate u = false) (fuel : Nat) (rest : Buffer) :
    utf8DecodeAux (fuel + 1) (utf8EncodeScalar u.val ++ rest) = u :: utf8DecodeAux fuel rest := by
  simp only [isHighSurrogate, isLowSurrogate, decide_eq_false_iff_not] at hh hl
  have hu := u.isLt
  rw [utf8DecodeAux_scalar u.val (by omega), utf16Units_of_lt hu, unit_val]
  rfl

theorem utf8DecodeAux_utf8Encode :
    ∀ s : JsString, isWellFormed s = true →
      ∀ fuel, (utf8Encode s).length ≤ fuel → utf8DecodeAux fuel (utf8Encode s) = s
  | [], _, fuel, _ => by cases fuel <;> rfl
  | [u], h, fuel, hf => by
    simp only [isWellFormed, Bool.and_eq_true, Bool.not_eq_true'] at h
    simp only [utf8Encode, h.1, h.2, Bool.or_self, Bool.false_eq_true, if_false] at hf ⊢
    have hpos := length_utf8EncodeScalar_pos u.val
    obtain ⟨f, rfl⟩ : ∃ f, fuel = f + 1 := ⟨fuel - 1, by omega⟩
    have := utf8DecodeAux_single u h.1 h.2 f []
    rw [List.append_nil] at this
    rw [this]
    cases f <;> rfl
  | u :: v :: rest, h, fuel, hf => by
    by_cases hu : isHighSurrogate u = true
    · simp only [isWellFormed, hu, if_true, Bool.and_eq_true] at h
      simp only [utf8Encode, hu, h.1, Bool.and_self, if_true, List.length_append] at hf ⊢
      have hpos := length_utf8EncodeScalar_pos
        (0x10000 + (u.val - 0xD800) * 1024 + (v.val - 0xDC00))
      obtain ⟨f, rfl⟩ : ∃ f, fuel = f + 1 := ⟨fuel - 1, by omega⟩
      have hscalar : 0x10000 + (u.val - 0xD800) * 1024 + (v.val - 0xDC00) < 55296 ∨
          57343 < 0x10000 + (u.val - 0xD800) * 1024 + (v.val - 0xDC00) ∧
            0x10000 + (u.val - 0xD800) * 1024 + (v.val - 0xDC00) < 1114112 := by
        have h1 := hu
        have h2 := h.1
        simp only [isHighSurrogate, isLowSurrogate, decide_eq_true_eq] at h1 h2
        omega
      rw [utf8DecodeAux_scalar _ hscalar, utf16Units_pair u v hu h.1,
        utf8DecodeAux_utf8Encode rest h.2 f (by omega)]
      rfl
    · have hu' : isHighSurrogate u = false := by simpa using hu
      simp only [isWellFormed, hu', Bool.false_eq_true, if_false, Bool.and_eq_true,
        Bool.not_eq_true'] at h
      simp only [utf8Encode, hu', h.1, Bool.false_and, Bool.or_self, Bool.false_eq_true,
        if_false, List.length_append] at hf ⊢
      have hpos := length_utf8EncodeScalar_pos u.val
      obtain ⟨f, rfl⟩ : ∃ f, fuel = f + 1 := ⟨fuel - 1, by omega⟩
      rw [utf8DecodeAux_single u hu' h.1, utf8DecodeAux_utf8Encode (v :: rest) h.2 f (by omega)]

theorem utf8Decode_utf8Encode (s : JsString) (h : isWellFormed s = true) :
    utf8Decode (utf8Encode s) = s :=
  utf8DecodeAux_utf8Encode s h _ (Nat.le_refl _)

/-! ## Stand-ins satisfy what is assumed of the primitives -/

theorem paddingOnly_decipherInverts : paddingOnly.DecipherInverts := by
  intro key iv data _ _
  show (match data ++ [byte 1] with
    | [] => Completion.throws (.native 0)
    | _ => Completion.normal (data ++ [byte 1]).dropLast) = .normal data
  rw [List.dropLast_concat]
  cases data <;> rfl

theorem paddingOnly_finalRejectsEmpty : paddingOnly.FinalRejectsEmpty :=
  fun _ _ _ _ => ⟨.native 0, rfl⟩

theorem length_utf8Encode_encryptionKey : (utf8Encode encryptionKey).length = 32 := by decide

/-! ## Cipher: `encrypt` and `decrypt` -/

theorem encrypt_eq (aes : Aes256Cbc) (randomBytes : Nat → Buffer) (text : JsString)
    (hiv : (randomBytes ivLength).length = 16) :
    encrypt aes randomBytes text =
      ⟨.fulfilled (hexEncode (randomBytes ivLength) ++ [colon] ++
        hexEncode (aes.encipher (utf8Encode encryptionKey) (randomBytes ivLength)
          (utf8Encode text))), none⟩ := by
  simp only [encrypt, createCipheriv, length_utf8Encode_encryptionKey, hiv, ne_eq,
    not_true_eq_false, if_false]

theorem decrypt_envelope (aes : Aes256Cbc) (iv data : Buffer) (hiv : iv.length = 16) :
    decrypt aes (hexEncode iv ++ [colon] ++ hexEncode data) =
      match aes.decipher (utf8Encode encryptionKey) iv data with
      | .throws err => ⟨.rejected err, none⟩
      | .normal decrypted => ⟨.fulfilled (utf8Decode decrypted), none⟩ := by
  simp only [decrypt, split_envelope, List.head?_cons, List.tail_cons, bufferFromHex, join,
    hexDecode_hexEncode, createDecipheriv, length_utf8Encode_encryptionKey, hiv, ne_eq,
    not_true_eq_false, if_false]

/-- For any transform that inverts itself, `decrypt` of the envelope built
from `text` fulfils with the UTF-8 decoding of the UTF-8 encoding of `text`. -/
theorem decrypt_envelope_utf8 (aes : Aes256Cbc) (haes : aes.DecipherInverts) (iv : Buffer)
    (hiv : iv.length = 16) (text : JsString) :
    decrypt aes (hexEncode iv ++ [colon] ++
        hexEncode (aes.encipher (utf8Encode encryptionKey) iv (utf8Encode text)))
      = ⟨.fulfilled (utf8Decode (utf8Encode text)), none⟩ := by
  rw [decrypt_envelope aes _ _ hiv, haes _ _ _ length_utf8Encode_encryptionKey hiv]

/-- Whatever the transform, as long as it inverts itself, and whatever the
16-octet IV: the round trip of the unpaired surrogate U+D800 is U+FFFD. -/
theorem decrypt_encrypt_replaces_surrogate (aes : Aes256Cbc) (haes : aes.DecipherInverts)
    (randomBytes : Nat → Buffer) (hiv : (randomBytes ivLength).length = 16) :
    ∃ envelope : JsString,
      encrypt aes randomBytes [unit 0xD800] = ⟨.fulfilled envelope, none⟩ ∧
      decrypt aes envelope = ⟨.fulfilled [unit 0xFFFD], none⟩ := by
  refine ⟨_, encrypt_eq aes randomBytes _ hiv, ?_⟩
  rw [decrypt_envelope_utf8 aes haes _ hiv]
  have h : utf8Decode (utf8Encode [unit 0xD800]) = [unit 0xFFFD] := by decide
  rw [h]

/-- C1 fails on a plaintext with an unpaired surrogate: `cipher.update` writes
U+D800 as the UTF-8 octets of U+FFFD, so `decrypt` of the envelope that
`encrypt` built fulfils with U+FFFD, not with the plaintext. -/
theorem decrypt_encrypt_lone_surrogate :
    isWellFormed [unit 0xD800] = false ∧
    utf8Encode [unit 0xD800] = [byte 0xEF, byte 0xBF, byte 0xBD] ∧
    encrypt paddingOnly countingBytes [unit 0xD800]
      = ⟨.fulfilled (jsString "000102030405060708090a0b0c0d0e0f:efbfbd01"), none⟩ ∧
    decrypt paddingOnly (jsString "000102030405060708090a0b0c0d0e0f:efbfbd01")
      = ⟨.fulfilled [unit 0xFFFD], none⟩ ∧
    decrypt paddingOnly (jsString "000102030405060708090a0b0c0d0e0f:efbfbd01")
      ≠ ⟨.fulfilled [unit 0xD800], none⟩ := by
  decide

/-- C1 as the code has it. Round trip: for every well-formed plaintext (no
unpaired surrogate) and every 16-octet IV handed out by `crypto.randomBytes`,
`encrypt` fulfils with the envelope `ivHex:ciphertextHex`;
`split(':')` cuts that envelope into exactly the IV hex and the ciphertext hex,
which decode to the same IV and ciphertext octets; and `decrypt` of the
envelope fulfils with exactly the plaintext. -/
theorem decrypt_encrypt (aes : Aes256Cbc) (haes : aes.DecipherInverts)
    (randomBytes : Nat → Buffer) (hiv : (randomBytes ivLength).length = 16)
    (text : JsString) (hwf : isWellFormed text = true) :
    ∃ envelope : JsString,
      encrypt aes randomBytes text = ⟨.fulfilled envelope, none⟩ ∧
      split colon envelope =
        [hexEncode (randomBytes ivLength),
          hexEncode (aes.encipher (utf8Encode encryptionKey) (randomBytes ivLength)
            (utf8Encode text))] ∧
      hexDecode (hexEncode (randomBytes ivLength)) = randomBytes ivLength ∧
      hexDecode (hexEncode (aes.encipher (utf8Encode encryptionKey) (randomBytes ivLength)
        (utf8Encode text))) =
        aes.encipher (utf8Encode encryptionKey) (randomBytes ivLength) (utf8Encode text) ∧
      decrypt aes envelope = ⟨.fulfilled text, none⟩ := by
  refine ⟨_, encrypt_eq aes randomBytes text hiv, split_envelope _ _, hexDecode_hexEncode _,
    hexDecode_hexEncode _, ?_⟩
  rw [decrypt_envelope_utf8 aes haes _ hiv, utf8Decode_utf8Encode text hwf]

/-- Instance of the amended C1 with the stand-in transform, the IV
`00 01 .. 0f` and the plaintext of the self-test block. -/
theorem decrypt_encrypt_witness :
    paddingOnly.DecipherInverts ∧ (countingBytes ivLength).length = 16 ∧
    isWellFormed (jsString "Password42!") = true ∧
    ∃ envelope : JsString,
      encrypt paddingOnly countingBytes (jsString "Password42!") = ⟨.fulfilled envelope, none⟩ ∧
      split colon envelope =
        [hexEncode (countingBytes ivLength),
          hexEncode (paddingOnly.encipher (utf8Encode encryptionKey) (countingBytes ivLength)
            (utf8Encode (jsString "Password42!")))] ∧
      hexDecode (hexEncode (countingBytes ivLength)) = countingBytes ivLength ∧
      hexDecode (hexEncode (paddingOnly.encipher (utf8Encode encryptionKey)
        (countingBytes ivLength) (utf8Encode (jsString "Password42!")))) =
        paddingOnly.encipher (utf8Encode encryptionKey) (countingBytes ivLength)
          (utf8Encode (jsString "Password42!")) ∧
      decrypt paddingOnly envelope = ⟨.fulfilled (jsString "Password42!"), none⟩ :=
  ⟨paddingOnly_decipherInverts, by decide, by decide,
    decrypt_encrypt paddingOnly paddingOnly_decipherInverts countingBytes (by decide)
      (jsString "Password42!") (by decide)⟩

/-- C9. IV uniqueness: for every plaintext and every two different 16-octet
IVs, `encrypt` fulfils with two different envelopes; the first 32 characters
of each envelope are the hexadecimal form of its IV, and that form is
injective. -/
theorem encrypt_ne_of_iv_ne (aes : Aes256Cbc) (randomBytes₁ randomBytes₂ : Nat → Buffer)
    (h₁ : (randomBytes₁ ivLength).length = 16) (h₂ : (randomBytes₂ ivLength).length = 16)
    (hne : randomBytes₁ ivLength ≠ randomBytes₂ ivLength) (text : JsString) :
    ∃ envelope₁ envelope₂ : JsString,
      encrypt aes randomBytes₁ text = ⟨.fulfilled envelope₁, none⟩ ∧
      encrypt aes randomBytes₂ text = ⟨.fulfilled envelope₂, none⟩ ∧
      envelope₁.take 32 = hexEncode (randomBytes₁ ivLength) ∧
      envelope₂.take 32 = hexEncode (randomBytes₂ ivLength) ∧
      envelope₁[32]? = some colon ∧ envelope₂[32]? = some colon ∧
      envelope₁ ≠ envelope₂ := by
  have l₁ : (hexEncode (randomBytes₁ ivLength)).length = 32 := by rw [length_hexEncode, h₁]
  have l₂ : (hexEncode (randomBytes₂ ivLength)).length = 32 := by rw [length_hexEncode, h₂]
  have t₁ : ∀ rest : JsString,
      (hexEncode (randomBytes₁ ivLength) ++ [colon] ++ rest).take 32
        = hexEncode (randomBytes₁ ivLength) := fun rest => by
    rw [List.append_assoc]; exact List.take_left' l₁
  have t₂ : ∀ rest : JsString,
      (hexEncode (randomBytes₂ ivLength) ++ [colon] ++ rest).take 32
        = hexEncode (randomBytes₂ ivLength) := fun rest => by
    rw [List.append_assoc]; exact List.take_left' l₂
  refine ⟨_, _, encrypt_eq aes randomBytes₁ text h₁, encrypt_eq aes randomBytes₂ text h₂,
    t₁ _, t₂ _, ?_, ?_, ?_⟩
  · rw [List.append_assoc, List.getElem?_append_right (Nat.le_of_eq l₁), l₁, Nat.sub_self,
      List.singleton_append, List.getElem?_cons_zero]
  · rw [List.append_assoc, List.getElem?_append_right (Nat.le_of_eq l₂), l₂, Nat.sub_self,
      List.singleton_append, List.getElem?_cons_zero]
  · intro heq
    have := congrArg (List.take 32) heq
    rw [t₁, t₂] at this
    exact hne (hexEncode_injective this)

/-- Instance of C9: the IVs `00 01 .. 0f` and sixteen times `ff`. -/
theorem encrypt_ne_of_iv_ne_witness :
    (countingBytes ivLength).length = 16 ∧
    ((fun n => List.replicate n (byte 255)) ivLength).length = 16 ∧
    countingBytes ivLength ≠ (fun n => List.replicate n (byte 255)) ivLength ∧
    ∃ envelope₁ envelope₂ : JsString,
      encrypt paddingOnly countingBytes (jsString "Password42!") = ⟨.fulfilled envelope₁, none⟩ ∧
      encrypt paddingOnly (fun n => List.replicate n (byte 255)) (jsString "Password42!")
        = ⟨.fulfilled envelope₂, none⟩ ∧
      envelope₁.take 32 = hexEncode (countingBytes ivLength) ∧
      envelope₂.take 32 = hexEncode ((fun n => List.replicate n (byte 255)) ivLength) ∧
      envelope₁[32]? = some colon ∧ envelope₂[32]? = some colon ∧
      envelope₁ ≠ envelope₂ :=
  ⟨by decide, by decide, by decide,
    encrypt_ne_of_iv_ne paddingOnly countingBytes (fun n => List.replicate n (byte 255))
      (by decide) (by decide) (by decide) (jsString "Password42!")⟩

/-- C10. For every envelope without a `:`, `decrypt` rejects and fulfils with
no plaintext: `split` returns the whole string as the only part, `shift`
takes it as the IV hex and the join of what remains is empty, so the
ciphertext is empty; then either the decoded IV is not 16 octets long and
`createDecipheriv` throws, or `final` throws on the empty ciphertext. -/
theorem decrypt_rejects_without_separator (aes : Aes256Cbc) (haes : aes.FinalRejectsEmpty)
    (text : JsString) (hsep : colon ∉ text) :
    (split colon text).head? = some text ∧
    hexDecode (join colon (split colon text).tail) = [] ∧
    (∃ err, decrypt aes text = ⟨.rejected err, none⟩ ∧
      ((hexDecode text).length ≠ 16 ∧ err = .invalidIv ∨
        (hexDecode text).length = 16 ∧
          aes.decipher (utf8Encode encryptionKey) (hexDecode text) [] = .throws err)) ∧
    ∀ plaintext, (decrypt aes text).settlement ≠ .fulfilled plaintext := by
  have hs := split_of_not_mem colon text hsep
  have key : ∃ err, decrypt aes text = ⟨.rejected err, none⟩ ∧
      ((hexDecode text).length ≠ 16 ∧ err = .invalidIv ∨
        (hexDecode text).length = 16 ∧
          aes.decipher (utf8Encode encryptionKey) (hexDecode text) [] = .throws err) := by
    by_cases hiv : (hexDecode text).length = 16
    · obtain ⟨err, herr⟩ := haes _ _ length_utf8Encode_encryptionKey hiv
      refine ⟨err, ?_, Or.inr ⟨hiv, herr⟩⟩
      simp only [decrypt, hs, List.head?_cons, List.tail_cons, bufferFromHex, join, hexDecode,
        createDecipheriv, length_utf8Encode_encryptionKey, hiv, ne_eq, not_true_eq_false,
        if_false, herr]
    · refine ⟨.invalidIv, ?_, Or.inl ⟨hiv, rfl⟩⟩
      simp only [decrypt, hs, List.head?_cons, bufferFromHex, createDecipheriv,
        length_utf8Encode_encryptionKey, hiv, ne_eq, not_true_eq_false, not_false_eq_true,
        if_false, if_true]
  refine ⟨by rw [hs]; rfl, by rw [hs]; rfl, key, ?_⟩
  obtain ⟨err, herr, _⟩ := key
  intro plaintext h
  rw [herr] at h
  cases h

/-- Instance of C10: 32 hexadecimal characters and no separator. -/
theorem decrypt_rejects_without_separator_witness :
    paddingOnly.FinalRejectsEmpty ∧ colon ∉ (jsString "000102030405060708090a0b0c0d0e0f") ∧
    (split colon (jsString "000102030405060708090a0b0c0d0e0f")).head?
      = some (jsString "000102030405060708090a0b0c0d0e0f") ∧
    hexDecode (join colon (split colon (jsString "000102030405060708090a0b0c0d0e0f")).tail) = [] ∧
    (∃ err, decrypt paddingOnly (jsString "000102030405060708090a0b0c0d0e0f")
        = ⟨.rejected err, none⟩ ∧
      ((hexDecode (jsString "000102030405060708090a0b0c0d0e0f")).length ≠ 16 ∧ err = .invalidIv ∨
        (hexDecode (jsString "000102030405060708090a0b0c0d0e0f")).length = 16 ∧
          paddingOnly.decipher (utf8Encode encryptionKey)
            (hexDecode (jsString "000102030405060708090a0b0c0d0e0f")) [] = .throws err)) ∧
    ∀ plaintext, (decrypt paddingOnly (jsString "000102030405060708090a0b0c0d0e0f")).settlement
      ≠ .fulfilled plaintext :=
  ⟨paddingOnly_finalRejectsEmpty, by decide,
    decrypt_rejects_without_separator paddingOnly paddingOnly_finalRejectsEmpty
      (jsString "000102030405060708090a0b0c0d0e0f") (by decide)⟩

/-! ## Hasher: `generateHash` and `compareToHash` -/

theorem generateHash_eq (randomBytes : Nat → Buffer) (scrypt : Scrypt) (password : JsString)
    (derivedKey : Buffer)
    (hkey : scrypt password (hexEncode (randomBytes 8)) 64 = .normal derivedKey) :
    generateHash randomBytes scrypt password =
      ⟨.fulfilled (hexEncode (randomBytes 8) ++ [colon] ++ hexEncode derivedKey), none⟩ := by
  simp only [generateHash, hkey]

theorem timingSafeEqual_self (a : Buffer) : timingSafeEqual a a = .normal true := by
  simp [timingSafeEqual]

theorem compareToHash_length_mismatch (scrypt : Scrypt) (password hash salt key : JsString)
    (rest : List JsString) (derivedKey : Buffer)
    (hsplit : split colon hash = salt :: key :: rest)
    (hkey : scrypt password salt 64 = .normal derivedKey)
    (hlen : (hexDecode key).length ≠ derivedKey.length) :
    compareToHash scrypt password hash = ⟨.pending, some .timingSafeEqualLength⟩ := by
  simp only [compareToHash, hsplit, List.head?_cons, bufferFromHex, hkey, timingSafeEqual, hlen,
    ne_eq, not_false_eq_true, if_true]

/-- C2. For every password and every salt handed out by `crypto.randomBytes`,
when scrypt derives a key, `generateHash` fulfils with `saltHex:keyHex`;
`split(':')` cuts that hash into exactly the salt and the key hex, the key hex
decodes to the derived key, and `compareToHash` of the password and the hash
fulfils with `true`. -/
theorem compareToHash_generateHash (randomBytes : Nat → Buffer) (scrypt : Scrypt)
    (password : JsString) (derivedKey : Buffer)
    (hkey : scrypt password (hexEncode (randomBytes 8)) 64 = .normal derivedKey) :
    ∃ hash : JsString,
      generateHash randomBytes scrypt password = ⟨.fulfilled hash, none⟩ ∧
      split colon hash = [hexEncode (randomBytes 8), hexEncode derivedKey] ∧
      hexDecode (hexEncode derivedKey) = derivedKey ∧
      compareToHash scrypt password hash = ⟨.fulfilled true, none⟩ := by
  refine ⟨_, generateHash_eq randomBytes scrypt password derivedKey hkey, split_envelope _ _,
    hexDecode_hexEncode _, ?_⟩
  simp only [compareToHash, split_envelope, List.head?_cons, bufferFromHex, hexDecode_hexEncode,
    hkey, timingSafeEqual_self]

/-- Instance of C2: the password of the self-test block, the salt
`00 01 .. 07` and the stand-in scrypt. -/
theorem compareToHash_generateHash_witness :
    lengthScrypt (jsString "Password42!") (hexEncode (countingBytes 8)) 64
      = .normal (List.replicate 64 (byte 27)) ∧
    ∃ hash : JsString,
      generateHash countingBytes lengthScrypt (jsString "Password42!") = ⟨.fulfilled hash, none⟩ ∧
      split colon hash = [hexEncode (countingBytes 8), hexEncode (List.replicate 64 (byte 27))] ∧
      hexDecode (hexEncode (List.replicate 64 (byte 27))) = List.replicate 64 (byte 27) ∧
      compareToHash lengthScrypt (jsString "Password42!") hash = ⟨.fulfilled true, none⟩ :=
  ⟨by decide,
    compareToHash_generateHash countingBytes lengthScrypt (jsString "Password42!")
      (List.replicate 64 (byte 27)) (by decide)⟩

/-- C3, evaluated on a stored hash whose key part decodes to 2 octets while
the derived key has 64: `crypto.timingSafeEqual` throws inside the scrypt
callback, so the promise is left pending with an uncaught `RangeError`; it is
not fulfilled with `false`. -/
theorem compareToHash_short_key :
    split colon (jsString "0001020304050607:abcd")
      = [(jsString "0001020304050607"), (jsString "abcd")] ∧
    (hexDecode (jsString "abcd")).length = 2 ∧
    lengthScrypt (jsString "Password42!") (jsString "0001020304050607") 64
      = .normal (List.replicate 64 (byte 27)) ∧
    compareToHash lengthScrypt (jsString "Password42!") (jsString "0001020304050607:abcd")
      = ⟨.pending, some .timingSafeEqualLength⟩ ∧
    compareToHash lengthScrypt (jsString "Password42!") (jsString "0001020304050607:abcd")
      ≠ ⟨.fulfilled false, none⟩ := by
  decide

/-- C4. For every password and every stored hash without a `:`,
`compareToHash` rejects with the `TypeError` that `Buffer.from(undefined, 'hex')`
throws: `split` returns one part, so `key` is `undefined`. The promise is
fulfilled with neither `true` nor `false`, and scrypt is not reached. -/
theorem compareToHash_rejects_without_separator (scrypt : Scrypt) (password hash : JsString)
    (hsep : colon ∉ hash) :
    split colon hash = [hash] ∧
    compareToHash scrypt password hash = ⟨.rejected .invalidArgType, none⟩ ∧
    ∀ answer : Bool, (compareToHash scrypt password hash).settlement ≠ .fulfilled answer := by
  have hs := split_of_not_mem colon hash hsep
  have h : compareToHash scrypt password hash = ⟨.rejected .invalidArgType, none⟩ := by
    simp only [compareToHash, hs, List.head?_nil, bufferFromHex]
  refine ⟨hs, h, ?_⟩
  intro answer habs
  rw [h] at habs
  cases habs

/-- Instance of C4: a stored hash whose separator is missing. -/
theorem compareToHash_rejects_without_separator_witness :
    colon ∉ (jsString "0001020304050607abcd") ∧
    split colon (jsString "0001020304050607abcd") = [(jsString "0001020304050607abcd")] ∧
    compareToHash lengthScrypt (jsString "Password42!") (jsString "0001020304050607abcd")
      = ⟨.rejected .invalidArgType, none⟩ ∧
    ∀ answer : Bool,
      (compareToHash lengthScrypt (jsString "Password42!") (jsString "0001020304050607abcd")).settlement
        ≠ .fulfilled answer :=
  ⟨by decide,
    compareToHash_rejects_without_separator lengthScrypt (jsString "Password42!")
      (jsString "0001020304050607abcd") (by decide)⟩

/-- C8. For every password, every 8-octet salt and every 64-octet derived key,
`generateHash` fulfils with `saltHex ++ ":" ++ keyHex`, where `saltHex` is 16
hexadecimal characters and `keyHex` is 128 hexadecimal characters; the string
has 145 characters and its only `:` is at index 16. -/
theorem generateHash_format (randomBytes : Nat → Buffer) (scrypt : Scrypt) (password : JsString)
    (derivedKey : Buffer) (hsalt : (randomBytes 8).length = 8)
    (hkey : scrypt password (hexEncode (randomBytes 8)) 64 = .normal derivedKey)
    (hlen : derivedKey.length = 64) :
    ∃ saltHex keyHex : JsString,
      generateHash randomBytes scrypt password
        = ⟨.fulfilled (saltHex ++ [colon] ++ keyHex), none⟩ ∧
      saltHex = hexEncode (randomBytes 8) ∧ keyHex = hexEncode derivedKey ∧
      saltHex.length = 16 ∧ (∀ c ∈ saltHex, c ∈ hexDigits) ∧
      keyHex.length = 128 ∧ (∀ c ∈ keyHex, c ∈ hexDigits) ∧
      (saltHex ++ [colon] ++ keyHex).length = 145 ∧
      ∀ i : Nat, (saltHex ++ [colon] ++ keyHex)[i]? = some colon ↔ i = 16 := by
  have l₁ : (hexEncode (randomBytes 8)).length = 16 := by rw [length_hexEncode, hsalt]
  have l₂ : (hexEncode derivedKey).length = 128 := by rw [length_hexEncode, hlen]
  refine ⟨_, _, generateHash_eq randomBytes scrypt password derivedKey hkey, rfl, rfl, l₁,
    mem_hexDigits_of_mem_hexEncode _, l₂, mem_hexDigits_of_mem_hexEncode _, ?_, ?_⟩
  · simp only [List.length_append, List.length_singleton, l₁, l₂]
  · intro i
    rw [getElem?_sep_iff colon _ _ (colon_not_mem_hexEncode _) (colon_not_mem_hexEncode _), l₁]

/-- Instance of C8: the password of the self-test block, the salt
`00 01 .. 07` and the stand-in scrypt. -/
theorem generateHash_format_witness :
    (countingBytes 8).length = 8 ∧
    lengthScrypt (jsString "Password42!") (hexEncode (countingBytes 8)) 64
      = .normal (List.replicate 64 (byte 27)) ∧
    (List.replicate 64 (byte 27)).length = 64 ∧
    ∃ saltHex keyHex : JsString,
      generateHash countingBytes lengthScrypt (jsString "Password42!")
        = ⟨.fulfilled (saltHex ++ [colon] ++ keyHex), none⟩ ∧
      saltHex = hexEncode (countingBytes 8) ∧
      keyHex = hexEncode (List.replicate 64 (byte 27)) ∧
      saltHex.length = 16 ∧ (∀ c ∈ saltHex, c ∈ hexDigits) ∧
      keyHex.length = 128 ∧ (∀ c ∈ keyHex, c ∈ hexDigits) ∧
      (saltHex ++ [colon] ++ keyHex).length = 145 ∧
      ∀ i : Nat, (saltHex ++ [colon] ++ keyHex)[i]? = some colon ↔ i = 16 :=
  ⟨by decide, by decide, by decide,
    generateHash_format countingBytes lengthScrypt (jsString "Password42!")
      (List.replicate 64 (byte 27)) (by decide) (by decide) (by decide)⟩


/-! ## Password generator: `generateRandomPassword` -/

theorem length_chars : chars.length = 69 := by decide

theorem chars_index (x : Nat) : ∃ c, chars[x % chars.length]? = some c ∧ c ∈ chars := by
  have h : x % chars.length < chars.length := Nat.mod_lt _ (by rw [length_chars]; decide)
  exact ⟨chars[x % chars.length], List.getElem?_eq_getElem h, List.getElem_mem h⟩

theorem map_some_joinEmpty (f : Nat → Option CodeUnit) (hf : ∀ x, ∃ c, f x = some c)
    (values : List Nat) : (joinEmpty (values.map f)).map some = values.map f := by
  induction values with
  | nil => rfl
  | cons v vs ih =>
    obtain ⟨c, hc⟩ := hf v
    simp only [List.map_cons, hc, joinEmpty]
    rw [ih]

theorem newUint32Array_natCast (maxLength n : Nat) (h : n ≤ maxLength) :
    newUint32Array maxLength (n : Int) = .normal (List.replicate n 0) := by
  have h' : ¬ ((n : Int) < 0 ∨ (maxLength : Int) < (n : Int)) := by omega
  simp only [newUint32Array, h', if_false, Int.toNat_natCast]

theorem newUint32Array_neg (maxLength : Nat) (length : Int) (h : length < 0) :
    newUint32Array maxLength length = .throws .invalidTypedArrayLength := by
  simp only [newUint32Array, h, true_or, if_true]

theorem getRandomValues_replicate (entropy : Nat → Nat) (n : Nat) (h : n ≤ 16384) :
    getRandomValues entropy (List.replicate n 0)
      = .normal ((List.range n).map fun i => entropy i % 2 ^ 32) := by
  have h' : ¬ (65536 < 4 * n) := by omega
  simp only [getRandomValues, List.length_replicate, h', if_false]

theorem getRandomValues_quota (entropy : Nat → Nat) (n : Nat) (h : 16384 < n) :
    getRandomValues entropy (List.replicate n 0) = .throws .quotaExceeded := by
  have h' : 65536 < 4 * n := by omega
  simp only [getRandomValues, List.length_replicate, h', if_true]

theorem generateRandomPassword_above_quota (entropy : Nat → Nat) (maxLength n : Nat)
    (h : 16384 < n) :
    generateRandomPassword entropy maxLength (some (n : Int))
      = .throws (if n ≤ maxLength then .quotaExceeded else .invalidTypedArrayLength) := by
  by_cases hm : n ≤ maxLength
  · simp only [generateRandomPassword, Option.getD_some, newUint32Array_natCast _ _ hm,
      getRandomValues_quota entropy n h, hm, if_true]
  · have h' : (n : Int) < 0 ∨ (maxLength : Int) < (n : Int) := by omega
    simp only [generateRandomPassword, Option.getD_some, newUint32Array, h', if_true, hm,
      if_false]

/-- C5 fails at length 16385: `crypto.getRandomValues` refuses an array of more
than 65536 bytes, so `generateRandomPassword(16385)` throws
`QuotaExceededError` and returns no string. -/
theorem generateRandomPassword_quota :
    (1 : Int) ≤ 16385 ∧
    generateRandomPassword (fun i => 7 * i + 68) 4294967295 (some 16385)
      = .throws .quotaExceeded ∧
    ¬ ∃ password,
      generateRandomPassword (fun i => 7 * i + 68) 4294967295 (some 16385)
        = .normal password := by
  have h := generateRandomPassword_above_quota (fun i => 7 * i + 68) 4294967295 16385
    (by decide)
  have h' : generateRandomPassword (fun i => 7 * i + 68) 4294967295 (some 16385)
      = .throws .quotaExceeded := h
  refine ⟨by decide, h', ?_⟩
  rintro ⟨password, hp⟩
  rw [h'] at hp
  cases hp

/-- C5 as the code has it. For every length `n` with `1 <= n <= 16384`, passed
explicitly or left to the default 24, on an engine that allocates typed arrays
of 16384 elements, `crypto.getRandomValues` returns `n` values, each
32-bit, the `i`-th being the `i`-th draw, and `generateRandomPassword` returns
a string of exactly `n` characters, each a member of `chars`, the `i`-th being
`chars[value_i % chars.length]`. -/
theorem generateRandomPassword_chars (entropy : Nat → Nat) (maxLength : Nat)
    (length : Option Int) (n : Nat) (hlength : length.getD 24 = (n : Int)) (_hn : 1 ≤ n)
    (hquota : n ≤ 16384) (hmax : 16384 ≤ maxLength) :
    ∃ (values : List Nat) (password : JsString),
      getRandomValues entropy (List.replicate n 0) = .normal values ∧
      generateRandomPassword entropy maxLength length = .normal password ∧
      password.length = n ∧ values.length = n ∧
      (∀ c ∈ password, c ∈ chars) ∧
      ∀ i, i < n →
        ∃ v c, values[i]? = some v ∧ v = entropy i % 2 ^ 32 ∧ v < 2 ^ 32 ∧
          password[i]? = some c ∧ chars[v % chars.length]? = some c := by
  have hvalues := getRandomValues_replicate entropy n hquota
  have hmap := map_some_joinEmpty (fun x => chars[x % chars.length]?)
    (fun x => (chars_index x).imp fun _ h => h.1)
    ((List.range n).map fun i => entropy i % 2 ^ 32)
  have hvl : ((List.range n).map fun i => entropy i % 2 ^ 32).length = n := by
    rw [List.length_map, List.length_range]
  have hpl : (joinEmpty (((List.range n).map fun i => entropy i % 2 ^ 32).map
      fun x => chars[x % chars.length]?)).length = n := by
    have := congrArg List.length hmap
    rw [List.length_map, List.length_map] at this
    rw [this, hvl]
  refine ⟨_, joinEmpty (((List.range n).map fun i => entropy i % 2 ^ 32).map
    fun x => chars[x % chars.length]?), hvalues, ?_, hpl, hvl, ?_, ?_⟩
  · simp only [generateRandomPassword, hlength,
      newUint32Array_natCast maxLength n (Nat.le_trans hquota hmax), hvalues]
  · intro c hc
    have hc' : some c ∈ (joinEmpty (((List.range n).map fun i => entropy i % 2 ^ 32).map
        fun x => chars[x % chars.length]?)).map some := List.mem_map_of_mem some hc
    rw [hmap, List.mem_map] at hc'
    obtain ⟨x, _, hx⟩ := hc'
    obtain ⟨d, hd, hmem⟩ := chars_index x
    rw [hd] at hx
    injection hx with hx
    exact hx ▸ hmem
  · intro i hi
    have hiv : ((List.range n).map fun i => entropy i % 2 ^ 32)[i]?
        = some (entropy i % 2 ^ 32) := by
      rw [List.getElem?_map, List.getElem?_range hi]
      rfl
    have hget := congrArg (fun l => l[i]?) hmap
    simp only [List.getElem?_map, hiv, Option.map_some'] at hget
    cases hp : (joinEmpty (((List.range n).map fun i => entropy i % 2 ^ 32).map
        fun x => chars[x % chars.length]?))[i]? with
    | none =>
      rw [hp] at hget
      cases hget
    | some c =>
      rw [hp] at hget
      simp only [Option.map_some'] at hget
      injection hget with hget
      exact ⟨_, c, hiv, rfl, Nat.mod_lt _ (by decide), rfl, hget.symm⟩

/-- Instance of the amended C5: the default length 24 with the draws
`2^32 + 7 i + 68`. -/
theorem generateRandomPassword_chars_witness :
    (none : Option Int).getD 24 = ((24 : Nat) : Int) ∧ 1 ≤ 24 ∧ 24 ≤ 16384 ∧
    16384 ≤ 4294967295 ∧
    ∃ (values : List Nat) (password : JsString),
      getRandomValues (fun i => 2 ^ 32 + 7 * i + 68) (List.replicate 24 0) = .normal values ∧
      generateRandomPassword (fun i => 2 ^ 32 + 7 * i + 68) 4294967295 none
        = .normal password ∧
      password.length = 24 ∧ values.length = 24 ∧
      (∀ c ∈ password, c ∈ chars) ∧
      ∀ i, i < 24 →
        ∃ v c, values[i]? = some v ∧ v = (fun i => 2 ^ 32 + 7 * i + 68) i % 2 ^ 32 ∧
          v < 2 ^ 32 ∧ password[i]? = some c ∧ chars[v % chars.length]? = some c :=
  ⟨rfl, by decide, by decide, by decide,
    generateRandomPassword_chars (fun i => 2 ^ 32 + 7 * i + 68) 4294967295 none 24 rfl
      (by decide) (by decide) (by decide)⟩

/-- C6 fails at length 0: `new Uint32Array(0)` is an empty array, nothing is
drawn, and `generateRandomPassword(0)` returns the empty string without
throwing. -/
theorem generateRandomPassword_zero :
    (0 : Int) ≤ 0 ∧
    generateRandomPassword (fun i => 7 * i + 68) 4294967295 (some 0) = .normal [] ∧
    ¬ ∃ err, generateRandomPassword (fun i => 7 * i + 68) 4294967295 (some 0)
      = .throws err := by
  refine ⟨by decide, by decide, ?_⟩
  rintro ⟨err, h⟩
  have h0 : generateRandomPassword (fun i => 7 * i + 68) 4294967295 (some 0) = .normal [] := by
    decide
  rw [h0] at h
  cases h

/-- C6 as the code has it. For every negative integer length,
`generateRandomPassword` throws the `RangeError` of the typed-array
constructor and returns no string; for length 0 it returns the empty string. -/
theorem generateRandomPassword_nonpositive (entropy : Nat → Nat) (maxLength : Nat)
    (length : Int) (hlength : length ≤ 0) :
    (length < 0 →
      generateRandomPassword entropy maxLength (some length)
        = .throws .invalidTypedArrayLength ∧
      ∀ password, generateRandomPassword entropy maxLength (some length) ≠ .normal password) ∧
    (length = 0 → generateRandomPassword entropy maxLength (some length) = .normal []) := by
  have hneg : length < 0 →
      generateRandomPassword entropy maxLength (some length)
        = .throws .invalidTypedArrayLength := by
    intro h
    simp only [generateRandomPassword, Option.getD_some, newUint32Array_neg maxLength length h]
  refine ⟨fun h => ⟨hneg h, ?_⟩, ?_⟩
  · intro password hp
    rw [hneg h] at hp
    cases hp
  · rintro rfl
    have h0 := newUint32Array_natCast maxLength 0 (Nat.zero_le _)
    simp only [generateRandomPassword, Option.getD_some, Nat.cast_zero] at h0 ⊢
    rw [h0]
    rfl

/-- Instance of the amended C6 at length `-3`. -/
theorem generateRandomPassword_nonpositive_witness :
    (-3 : Int) ≤ 0 ∧
    ((-3 : Int) < 0 →
      generateRandomPassword (fun i => 7 * i + 68) 4294967295 (some (-3))
        = .throws .invalidTypedArrayLength ∧
      ∀ password,
        generateRandomPassword (fun i => 7 * i + 68) 4294967295 (some (-3))
          ≠ .normal password) ∧
    ((-3 : Int) = 0 →
      generateRandomPassword (fun i => 7 * i + 68) 4294967295 (some (-3)) = .normal []) :=
  ⟨by decide,
    generateRandomPassword_nonpositive (fun i => 7 * i + 68) 4294967295 (-3) (by decide)⟩

/-- C7 fails: `chars` has 69 characters, not 70, and a draw that is a multiple
of 69 selects `chars[0]`, which reduction modulo 70 would not. -/
theorem chars_length_ne_70 :
    chars.length ≠ 70 ∧
    generateRandomPassword (fun _ => 69) 4294967295 (some 1) = .normal (jsString "a") ∧
    chars[69 % 70]? = none := by
  decide

/-- C7 as the code has it. `chars` consists of exactly 69 distinct characters,
namely `a`-`z`, `A`-`Z`, `0`-`9` and the seven symbols `!@-_#$*`, so that each
32-bit draw is reduced modulo 69. -/
theorem chars_alphabet :
    chars.length = 69 ∧ chars.Nodup ∧
    chars = (List.range 26).map (fun i => unit (97 + i))
      ++ (List.range 26).map (fun i => unit (65 + i))
      ++ (List.range 10).map (fun i => unit (48 + i))
      ++ jsString "!@-_#$*" ∧
    jsString "!@-_#$*" = [unit 33, unit 64, unit 45, unit 95, unit 35, unit 36, unit 42] ∧
    ∀ x : Nat, chars[x % chars.length]? = chars[x % 69]? := by
  refine ⟨by decide, by decide, by decide, by decide, ?_⟩
  intro x
  rw [length_chars]

end Tools
